import Mathlib

/-!
Verification of the Anchor Resolution & Safe-Apply Engine of the ai-gdoc
Google Docs AI editor (src/Code.js), against its design specification.

Strings are modelled as lists of characters (`Str := List Char`); the
JavaScript string primitives used by the source (substring, trim,
replace, toLowerCase, startsWith, includes) are given explicit
executable definitions.  The Google Docs / Drive collaborators are
modelled at their interface boundary: the document body is a list of
text-element strings, the Drive comment is a record value, the network
success or failure of each comment-update attempt is an explicit oracle
parameter, and the text surface accepts an optional injected faulty
write so that the specification's fault-injection scenarios (a mutation
whose written text differs from the requested text) are expressible.
-/

abbrev Str := List Char

/-- JavaScript whitespace: the character class matched by the regex
class \s and stripped by String.prototype.trim (space, tab, line
terminators, vertical tab, form feed, NBSP, Unicode space separators,
line/paragraph separator, BOM). -/
def isJsWs (c : Char) : Bool :=
  c = ' ' || c = '\t' || c = '\n' || c = '\r' ||
  c.toNat = 0x0B || c.toNat = 0x0C || c.toNat = 0xA0 || c.toNat = 0x1680 ||
  (0x2000 ≤ c.toNat && c.toNat ≤ 0x200A) ||
  c.toNat = 0x2028 || c.toNat = 0x2029 || c.toNat = 0x202F ||
  c.toNat = 0x205F || c.toNat = 0x3000 || c.toNat = 0xFEFF

/-- Helper for `collapseWs`; the Bool records whether the previous
character was whitespace (i.e. we are inside a run already emitted). -/
def collapseWsAux : Str → Bool → Str
  | [], _ => []
  | c :: rest, prevWs =>
    if isJsWs c then
      if prevWs then collapseWsAux rest true else ' ' :: collapseWsAux rest true
    else c :: collapseWsAux rest false

/-- s.replace(new RegExp("\\s+", "g"), " "): collapse every whitespace run
to a single space. -/
def collapseWs (s : Str) : Str := collapseWsAux s false

/-- String.prototype.trim: drop leading and trailing whitespace. -/
def trimStr (s : Str) : Str :=
  ((s.dropWhile isJsWs).reverse.dropWhile isJsWs).reverse

/-- The control characters removed by sanitizeText and by
verifyTextLocation's normalization: U+0000-U+001F and U+007F-U+009F
(src/Code.js 416). -/
def isCtl (c : Char) : Bool :=
  c.toNat ≤ 0x1F || (0x7F ≤ c.toNat && c.toNat ≤ 0x9F)

/-- Unicode line separator U+2028 / paragraph separator U+2029
(src/Code.js 417). -/
def isLineSep (c : Char) : Bool := c.toNat = 0x2028 || c.toNat = 0x2029

/-- One step of s.replace(lineSeparatorsRegex, "\n"). -/
def sepToNl (c : Char) : Char := if isLineSep c then '\n' else c

/-- sanitizeText (src/Code.js 414-423): remove control characters,
replace U+2028/U+2029 by a newline, then trim. -/
def sanitizeText (text : Str) : Str :=
  trimStr ((text.filter (fun c => !isCtl c)).map sepToNl)

/-- The normalization applied by calculateSimilarity (src/Code.js
684-685): collapse whitespace runs, trim, lower-case. -/
def simNormalize (s : Str) : Str := (trimStr (collapseWs s)).map Char.toLower

/-- Inner loop of the Levenshtein matrix of calculateSimilarity
(src/Code.js 696-705).  Walking along row j: `diag` is matrix[j-1][i-1],
`p` ranges over matrix[j-1][i], `left` is matrix[j][i-1]; each produced
value is matrix[j][i] = min(matrix[j-1][i]+1, matrix[j][i-1]+1,
matrix[j-1][i-1]+cost). -/
def levStepAux (c2 : Char) : Str → List ℕ → ℕ → ℕ → List ℕ
  | [], _, _, _ => []
  | _ :: _, [], _, _ => []
  | c1 :: cs, p :: ps, diag, left =>
    let cost := if c1 = c2 then 0 else 1
    let v := min (min (p + 1) (left + 1)) (diag + cost)
    v :: levStepAux c2 cs ps p v

/-- Row j of the Levenshtein matrix from row j-1 (`prev`); the row
starts with matrix[j][0] = j (src/Code.js 694). -/
def levRowNext (s1 : Str) (prev : List ℕ) (j : ℕ) (c2 : Char) : List ℕ :=
  match prev with
  | [] => [j]
  | p0 :: ptail => j :: levStepAux c2 s1 ptail p0 j

/-- Iterate the rows of the Levenshtein matrix over the characters of
the second string. -/
def levRows (s1 : Str) : Str → List ℕ → ℕ → List ℕ
  | [], row, _ => row
  | c2 :: rest, row, j => levRows s1 rest (levRowNext s1 row j c2) (j + 1)

/-- The Levenshtein distance as computed by the dynamic-programming
matrix of calculateSimilarity (src/Code.js 691-707): the final cell
matrix[len2][len1].  Row 0 is matrix[0][i] = i (src/Code.js 693). -/
def lev (s1 s2 : Str) : ℕ :=
  (levRows s1 s2 (List.range (s1.length + 1)) 1).getLastD 0

/-- calculateSimilarity (src/Code.js 680-710).  Note the JavaScript
guard `if (!str1 || !str2) return 0`: the empty string is falsy, so it
is taken before any normalization whenever either input is empty. -/
def calculateSimilarity (str1 str2 : Str) : ℚ :=
  if str1 = [] ∨ str2 = [] then 0
  else
    let s1 := simNormalize str1
    let s2 := simNormalize str2
    if s1 = s2 then 1
    else
      let len1 := s1.length
      let len2 := s2.length
      let distance := lev s1 s2
      let maxLen := max len1 len2
      if maxLen = 0 then 1 else 1 - (distance : ℚ) / (maxLen : ℚ)

/-- C5 counterexample: the similarity of two empty strings is 0, not
1.0 — the JavaScript falsy-guard `if (!str1 || !str2) return 0` fires
for a pair of empty strings before the equal-after-normalization and
both-empty rules claimed by the specification can apply. -/
theorem calculateSimilarity_empty_empty_is_zero :
    calculateSimilarity [] [] = 0 ∧ calculateSimilarity [] [] ≠ 1 := by
  constructor
  · rfl
  · intro h
    exact absurd h (by decide)

/-- C5 (amended): if either input string is empty the score is 0.0
(including the both-empty case, which the spec claims scores 1.0);
for two non-empty inputs, equal normalized strings score 1.0, and
otherwise the score is 1 - levenshtein(a,b) / max(len(a), len(b)) over
the normalized strings. -/
theorem calculateSimilarity_spec (a b : Str) :
    (a = [] ∨ b = [] → calculateSimilarity a b = 0) ∧
    (a ≠ [] → b ≠ [] → simNormalize a = simNormalize b →
      calculateSimilarity a b = 1) ∧
    (a ≠ [] → b ≠ [] → simNormalize a ≠ simNormalize b →
      calculateSimilarity a b =
        1 - (lev (simNormalize a) (simNormalize b) : ℚ) /
            (max (simNormalize a).length (simNormalize b).length : ℚ)) := by
  refine ⟨?_, ?_, ?_⟩
  · intro h
    simp [calculateSimilarity, h]
  · intro ha hb heq
    have hor : ¬ (a = [] ∨ b = []) := by
      rintro (h | h) <;> [exact ha h; exact hb h]
    simp [calculateSimilarity, hor, heq]
  · intro ha hb hne
    have hor : ¬ (a = [] ∨ b = []) := by
      rintro (h | h) <;> [exact ha h; exact hb h]
    have hmax : ¬ (max (simNormalize a).length (simNormalize b).length = 0) := by
      intro h
      have h1 : (simNormalize a).length = 0 :=
        Nat.le_antisymm (h ▸ le_max_left _ _) (Nat.zero_le _)
      have h2 : (simNormalize b).length = 0 :=
        Nat.le_antisymm (h ▸ le_max_right _ _) (Nat.zero_le _)
      exact hne (by rw [List.length_eq_zero.mp h1, List.length_eq_zero.mp h2])
    simp [calculateSimilarity, hor, hne, hmax]

/-- C5 witness: the three branches of the amended similarity contract,
exercised at concrete inputs through the theorem itself. -/
theorem calculateSimilarity_spec_witness :
    calculateSimilarity ("a".toList) [] = 0 ∧
    calculateSimilarity ("a b".toList) ("a  b ".toList) = 1 ∧
    calculateSimilarity ("ab".toList) ("b".toList) =
      1 - (lev (simNormalize ("ab".toList)) (simNormalize ("b".toList)) : ℚ) /
          (max (simNormalize ("ab".toList)).length (simNormalize ("b".toList)).length : ℚ) :=
  ⟨(calculateSimilarity_spec ("a".toList) []).1 (Or.inr rfl),
   (calculateSimilarity_spec ("a b".toList) ("a  b ".toList)).2.1
     (by decide) (by decide) (by decide),
   (calculateSimilarity_spec ("ab".toList) ("b".toList)).2.2
     (by decide) (by decide) (by decide)⟩

/-- Membership is preserved downward by trimming. -/
theorem mem_trimStr {c : Char} {s : Str} (h : c ∈ trimStr s) : c ∈ s := by
  unfold trimStr at h
  rw [List.mem_reverse] at h
  have h2 : c ∈ (s.dropWhile isJsWs).reverse :=
    (List.dropWhile_suffix isJsWs).sublist.mem h
  rw [List.mem_reverse] at h2
  exact (List.dropWhile_suffix isJsWs).sublist.mem h2

/-- dropWhile either returns the empty list or a list whose head fails
the predicate. -/
theorem dropWhile_head_not (p : Char → Bool) (l : Str) :
    l.dropWhile p = [] ∨ ∃ x t, l.dropWhile p = x :: t ∧ p x = false := by
  induction l with
  | nil => exact Or.inl rfl
  | cons a as ih =>
    cases h : p a with
    | true =>
      rw [List.dropWhile_cons, if_pos h]
      exact ih
    | false =>
      exact Or.inr ⟨a, as, by rw [List.dropWhile_cons, if_neg (by simp [h])], h⟩

/-- dropWhile is idempotent. -/
theorem dropWhile_dropWhile (p : Char → Bool) (l : Str) :
    (l.dropWhile p).dropWhile p = l.dropWhile p := by
  rcases dropWhile_head_not p l with h | ⟨x, t, h, hx⟩
  · rw [h]; rfl
  · rw [h, List.dropWhile_cons, if_neg (by simp [hx])]

/-- Trimming is idempotent: a trimmed string has no leading or trailing
whitespace left to remove. -/
theorem trimStr_idem (s : Str) : trimStr (trimStr s) = trimStr s := by
  unfold trimStr
  obtain ⟨u, hu⟩ := List.dropWhile_suffix (l := (s.dropWhile isJsWs).reverse) isJsWs
  set w := (s.dropWhile isJsWs).reverse.dropWhile isJsWs with hwdef
  have hy : s.dropWhile isJsWs = w.reverse ++ u.reverse := by
    have := congrArg List.reverse hu
    simpa [List.reverse_append] using this.symm
  have hstep1 : w.reverse.dropWhile isJsWs = w.reverse := by
    cases hw : w.reverse with
    | nil => rfl
    | cons c z =>
      rcases dropWhile_head_not isJsWs s with h0 | ⟨x, t, h0, hx⟩
      · rw [h0] at hy
        rw [hw] at hy
        simp at hy
      · rw [h0, hw] at hy
        have hxt : x :: t = c :: (z ++ u.reverse) := by simpa using hy
        have hcx : x = c := by injection hxt
        rw [List.dropWhile_cons, if_neg (by simp [hcx ▸ hx])]
  rw [hstep1, List.reverse_reverse, hwdef, dropWhile_dropWhile]

/-- C10: the sanitizer deletes every input control character (in
particular newlines, carriage returns and tabs are removed, not
preserved): a control character in the output can only be the newline
produced by replacing U+2028/U+2029; if the input contains no
U+2028/U+2029 the output contains no control character at all; and the
output has no leading or trailing whitespace (trimming it again is the
identity). -/
theorem sanitizeText_spec (s : Str) :
    (∀ c ∈ sanitizeText s, isCtl c = true → c = '\n') ∧
    ((∀ c ∈ s, isLineSep c = false) →
      ∀ c ∈ sanitizeText s, isCtl c = false) ∧
    trimStr (sanitizeText s) = sanitizeText s := by
  refine ⟨?_, ?_, ?_⟩
  · intro c hc hctl
    have hm : c ∈ (s.filter (fun c => !isCtl c)).map sepToNl := mem_trimStr hc
    rcases List.mem_map.mp hm with ⟨c0, hc0, rfl⟩
    have hnc : isCtl c0 = false := by
      have := (List.mem_filter.mp hc0).2
      simpa using this
    cases hsep : isLineSep c0 with
    | true => simp [sepToNl, hsep]
    | false =>
      exfalso
      rw [show sepToNl c0 = c0 from by simp [sepToNl, hsep]] at hctl
      rw [hnc] at hctl
      exact Bool.false_ne_true hctl
  · intro hnosep c hc
    have hm : c ∈ (s.filter (fun c => !isCtl c)).map sepToNl := mem_trimStr hc
    rcases List.mem_map.mp hm with ⟨c0, hc0, rfl⟩
    have hmem : c0 ∈ s := (List.mem_filter.mp hc0).1
    have hnc : isCtl c0 = false := by
      have := (List.mem_filter.mp hc0).2
      simpa using this
    rw [show sepToNl c0 = c0 from by simp [sepToNl, hnosep c0 hmem]]
    exact hnc
  · exact trimStr_idem _

/-- C10 witness: the sanitizer contract applied to the concrete input
"  a\tb c  " (leading/trailing blanks, an embedded tab, an
embedded U+2028), and to the separator-free input "x\ty". -/
theorem sanitizeText_spec_witness :
    trimStr (sanitizeText ("  a\tb".toList ++ [Char.ofNat 0x2028] ++ "c  ".toList)) =
      sanitizeText ("  a\tb".toList ++ [Char.ofNat 0x2028] ++ "c  ".toList) ∧
    isCtl 'x' = false := by
  constructor
  · exact (sanitizeText_spec _).2.2
  · exact (sanitizeText_spec ("x\ty".toList)).2.1 (by decide) 'x' (by decide)

/-- A reply on a Drive comment; only its content is inspected by the
state machine (src/Code.js 437-443). -/
structure Reply where
  content : Str
  deriving DecidableEq

/-- A Drive comment record, restricted to the fields the engine
requests (id,content,resolved,anchor,quotedFileContent,replies).
`quotedFileContent` is the .value of the quoted-content object, or
`none` when the object is absent. -/
structure Comment where
  content : Str
  quotedFileContent : Option Str
  anchor : Str
  resolved : Bool
  replies : List Reply
  deriving DecidableEq

/-- COMMENT_STATE.ACCEPTED (src/Code.js 94-98). -/
def STATE_ACCEPTED : Str := "[STATE:ACCEPTED]".toList

/-- COMMENT_STATE.PROCESSING (src/Code.js 94-98). -/
def STATE_PROCESSING : Str := "[STATE:PROCESSING]".toList

/-- COMMENT_STATE.REJECTED (src/Code.js 94-98). -/
def STATE_REJECTED : Str := "[STATE:REJECTED]".toList

/-- COMMENT_STATE in its JavaScript object-key insertion order, the
order in which the inner loop of getCommentState scans markers. -/
def stateMarkers : List Str := [STATE_ACCEPTED, STATE_PROCESSING, STATE_REJECTED]

/-- String.prototype.includes: the needle occurs contiguously somewhere
in the haystack. -/
def strIncludes (hay needle : Str) : Bool :=
  (List.range (hay.length + 1)).any (fun i => needle.isPrefixOf (hay.drop i))

/-- The first state marker contained in a reply, in marker order
(inner loop of getCommentState, src/Code.js 439-443). -/
def replyMarker (r : Reply) : Option Str :=
  stateMarkers.find? (fun m => strIncludes r.content m)

/-- getCommentState (src/Code.js 431-447): scan replies newest-first
and return the first marker found, or none for an unprocessed record. -/
def getCommentState (c : Comment) : Option Str :=
  c.replies.reverse.findSome? replyMarker

/-- The comment-content magic word marking an instruction. -/
def aiPrefix : Str := "AI:".toList

/-- The eligibility filter of getAIComments (src/Code.js 471-488): an
AI-prefixed, unresolved comment with non-empty quoted text, a
non-empty anchor, and no state or a REJECTED state. -/
def isEligibleAIComment (comment : Comment) : Bool :=
  let content := trimStr comment.content
  let isAIComment := aiPrefix.isPrefixOf content
  let isActive := !comment.resolved
  let hasQuotedText :=
    match comment.quotedFileContent with
    | some v => !v.isEmpty
    | none => false
  let hasValidAnchor := !comment.anchor.isEmpty
  let state := getCommentState comment
  let isEligible := state == none || state == some STATE_REJECTED
  isAIComment && isActive && hasQuotedText && hasValidAnchor && isEligible

/-- The lifecycle states named by the specification (§3). -/
inductive LifecycleState
  | Unprocessed
  | Processing
  | PendingReview
  | Accepted
  | Rejected
  | Invalid
  deriving DecidableEq

/-- Modelled from the spec: §4.6 deriveState, which the source keeps
implicit (getCommentState returns a raw marker; the Unprocessed/Invalid
distinction is the spec's reading of a record with no marker): the most
recent marker determines the state; with no marker the state is
Unprocessed when the record has a recognized instruction prefix and a
non-empty quotedText, else Invalid. -/
def specDeriveState (c : Comment) : LifecycleState :=
  match getCommentState c with
  | some m =>
    if m = STATE_ACCEPTED then .Accepted
    else if m = STATE_PROCESSING then .Processing
    else .Rejected
  | none =>
    if aiPrefix.isPrefixOf (trimStr c.content) && !(c.quotedFileContent.getD []).isEmpty
    then .Unprocessed
    else .Invalid

/-- Any marker returned by getCommentState is one of the three
COMMENT_STATE markers. -/
theorem getCommentState_mem {c : Comment} {m : Str}
    (hm : getCommentState c = some m) :
    m = STATE_ACCEPTED ∨ m = STATE_PROCESSING ∨ m = STATE_REJECTED := by
  obtain ⟨r, hr, hrm⟩ := List.exists_of_findSome?_eq_some hm
  have := List.mem_of_find?_eq_some hrm
  simpa [stateMarkers] using this

/-- C6 counterexample: a record in derived state Unprocessed, not
resolved and with non-empty quotedText, which getAIComments nevertheless
rejects because its anchor is empty — the claimed characterization of
eligibility omits the anchor requirement (src/Code.js 476). -/
theorem eligibility_requires_anchor_cex :
    specDeriveState ⟨"AI: improve this".toList, some ("x".toList), [], false, []⟩ =
      LifecycleState.Unprocessed ∧
    (⟨"AI: improve this".toList, some ("x".toList), [], false, []⟩ : Comment).resolved = false ∧
    (⟨"AI: improve this".toList, some ("x".toList), [], false, []⟩ : Comment).quotedFileContent.getD [] ≠ [] ∧
    isEligibleAIComment ⟨"AI: improve this".toList, some ("x".toList), [], false, []⟩ = false := by
  decide

/-- C6 (amended): a record is eligible iff its derived state is
Unprocessed or Rejected, it is not resolved, its quotedText is
non-empty, its anchor is non-empty, and its trimmed content carries the
AI: instruction prefix (the last two conjuncts are requirements of the
code that the claimed characterization omits; Accepted, Processing and
Invalid records are never eligible, as claimed). -/
theorem isEligibleAIComment_iff (c : Comment) :
    isEligibleAIComment c = true ↔
      ((specDeriveState c = LifecycleState.Unprocessed ∨
        specDeriveState c = LifecycleState.Rejected) ∧
       c.resolved = false ∧
       c.quotedFileContent.getD [] ≠ [] ∧
       c.anchor ≠ [] ∧
       aiPrefix.isPrefixOf (trimStr c.content) = true) := by
  have hAR : STATE_ACCEPTED ≠ STATE_REJECTED := by decide
  have hPR : STATE_PROCESSING ≠ STATE_REJECTED := by decide
  have hAP : STATE_ACCEPTED ≠ STATE_PROCESSING := by decide
  cases hq : c.quotedFileContent with
  | none =>
    simp [isEligibleAIComment, hq]
  | some v =>
    cases hst : getCommentState c with
    | none =>
      by_cases hpre : aiPrefix.isPrefixOf (trimStr c.content) = true
      · by_cases hv : v = []
        · simp [isEligibleAIComment, specDeriveState, hst, hq, hpre, hv]
        · simp [isEligibleAIComment, specDeriveState, hst, hq, hpre, hv,
                List.isEmpty_iff]
      · simp [isEligibleAIComment, specDeriveState, hst, hq,
              Bool.not_eq_true] at hpre ⊢
        simp [hpre]
    | some m =>
      rcases getCommentState_mem hst with rfl | rfl | rfl
      · simp [isEligibleAIComment, specDeriveState, hst, hq, hAR]
      · simp [isEligibleAIComment, specDeriveState, hst, hq, hPR, hAP.symm]
      · simp [isEligibleAIComment, specDeriveState, hst, hq, hAR.symm, hPR.symm,
              List.isEmpty_iff]
        tauto

/-- C6 witness: a concrete eligible record classified through the
amended characterization. -/
theorem isEligibleAIComment_iff_witness :
    specDeriveState ⟨"AI: fix".toList, some ("x".toList), "a".toList, false, []⟩ =
        LifecycleState.Unprocessed ∨
    specDeriveState ⟨"AI: fix".toList, some ("x".toList), "a".toList, false, []⟩ =
        LifecycleState.Rejected :=
  ((isEligibleAIComment_iff _).mp (by decide)).1



/-- The document body as seen through the Document Surface collaborator:
an ordered list of text elements (body.findText walks them in order and
reports offsets local to the matched element). -/
structure Doc where
  elements : List Str
  deriving DecidableEq

/-- The text of element i (empty for an out-of-range index). -/
def Doc.elemText (d : Doc) (i : ℕ) : Str := d.elements.getD i []

/-- Write the text of element i. -/
def Doc.setElemText (d : Doc) (i : ℕ) (t : Str) : Doc := ⟨d.elements.set i t⟩

/-- body.getText(): the full document text, elements joined by a
newline. -/
def fullText (d : Doc) : Str := List.intercalate ['\n'] d.elements

/-- JavaScript String.prototype.substring(a, b) for a ≤ b: the
characters of positions a, ..., b-1. -/
def subList (t : Str) (a b : ℕ) : Str := (t.take b).drop a

/-- Text.deleteText(start, endInclusive): remove that inclusive
character range. -/
def deleteRange (t : Str) (start endIncl : ℕ) : Str :=
  t.take start ++ t.drop (endIncl + 1)

/-- Text.insertText(offset, ins). -/
def insertAt (t : Str) (offset : ℕ) (ins : Str) : Str :=
  t.take offset ++ ins ++ t.drop offset

/-- A resolved anchor location as produced by verifyTextLocation
(src/Code.js 613-624): element, start offset, inclusive end offset, and
the anchor bounds (set equal to the offsets). -/
structure Location where
  elemIdx : ℕ
  startOffset : ℕ
  endOffset : ℕ
  anchorStart : ℕ
  anchorEnd : ℕ
  deriving DecidableEq

/-- All start offsets at which the needle occurs in a text element
(body.findText reported matches, modelled as literal substring
search). -/
def occurrencesIn (t needle : Str) : List ℕ :=
  (List.range (t.length + 1 - needle.length)).filter
    (fun i => needle.isPrefixOf (t.drop i))

/-- All matches of the needle in the document, in element order then
offset order (the findText loop of src/Code.js 588-603). -/
def findAllOccurrences (d : Doc) (needle : Str) : List Location :=
  (d.elements.enum.map (fun p =>
    (occurrencesIn p.2 needle).map (fun i =>
      ⟨p.1, i, i + needle.length - 1, i, i + needle.length - 1⟩))).flatten

/-- The normalization applied by verifyTextLocation before searching
(src/Code.js 577-585): remove control characters, normalize U+2028 and
U+2029 to a newline, collapse whitespace runs, trim.  (No case
folding, unlike calculateSimilarity.) -/
def normalizeForSearch (s : Str) : Str :=
  trimStr (collapseWs ((s.filter (fun c => !isCtl c)).map sepToNl))

/-- The symmetric 50-character context window around a match, clipped
to the element bounds (src/Code.js 633-636). -/
def contextOf (d : Doc) (m : Location) : Str :=
  let elementText := d.elemText m.elemIdx
  let contextStart := m.startOffset - 50
  let contextEnd := min elementText.length (m.endOffset + 51)
  subList elementText contextStart contextEnd

/-- The context-similarity score of a candidate match against the
stored quoted context (src/Code.js 638). -/
def scoreOf (d : Doc) (quotedContext : Str) (m : Location) : ℚ :=
  calculateSimilarity (contextOf d m) quotedContext

/-- The best-candidate selection loop of verifyTextLocation
(src/Code.js 629-644): keep a candidate when its score strictly
exceeds both the running best and 0.7. -/
def bestCandidate (d : Doc) (qc : Str) :
    List Location → Option Location → ℚ → Option Location × ℚ
  | [], best, bestScore => (best, bestScore)
  | m :: rest, best, bestScore =>
    if bestScore < scoreOf d qc m ∧ 7/10 < scoreOf d qc m then
      bestCandidate d qc rest (some m) (scoreOf d qc m)
    else bestCandidate d qc rest best bestScore

/-- Outcome of anchor resolution. -/
inductive VerifyResult
  | success (loc : Location)
  | failure (err : String)
  deriving DecidableEq

def VerifyResult.isSuccess : VerifyResult → Bool
  | .success _ => true
  | .failure _ => false

/-- verifyTextLocation (src/Code.js 551-670), with the Drive API
round-trips of lines 553-571 replaced by the comment record itself:
normalize the quoted text, collect every occurrence, succeed directly
on a unique match, and otherwise require the best context-similarity
score against comment.quotedFileContent.value to exceed the 0.8
confidence threshold. -/
def verifyTextLocation (d : Doc) (comment : Comment) (originalText : Str) :
    VerifyResult :=
  if comment.anchor = [] then .failure "Comment is missing required data"
  else
    match comment.quotedFileContent with
    | none => .failure "Comment is missing required data"
    | some quotedContext =>
      match findAllOccurrences d (normalizeForSearch originalText) with
      | [] => .failure "Could not find the text in the document"
      | [m] => .success m
      | m1 :: m2 :: rest =>
        match bestCandidate d quotedContext (m1 :: m2 :: rest) none 0 with
        | (some m, s) =>
          if 8/10 < s then .success m
          else .failure "Could not reliably determine text location"
        | (none, _) => .failure "Could not reliably determine text location"

/-- Every member of a list is at most its foldr-max (with base 0). -/
theorem le_foldr_max (l : List ℚ) (x : ℚ) (hx : x ∈ l) : x ≤ l.foldr max 0 := by
  induction l with
  | nil => cases hx
  | cons a t ih =>
    simp only [List.foldr_cons]
    rcases List.mem_cons.mp hx with rfl | h
    · exact le_max_left _ _
    · exact le_trans (ih h) (le_max_right _ _)

/-- foldr-max is below any upper bound that also dominates the base. -/
theorem foldr_max_le (l : List ℚ) (a : ℚ) (h0 : 0 ≤ a) (h : ∀ x ∈ l, x ≤ a) :
    l.foldr max 0 ≤ a := by
  induction l with
  | nil => simpa using h0
  | cons b t ih =>
    simp only [List.foldr_cons]
    exact max_le (h b (by simp)) (ih (fun x hx => h x (List.mem_cons_of_mem _ hx)))

/-- A strict lower bound below foldr-max (with nonnegative bound) is
beaten by some member. -/
theorem exists_lt_of_lt_foldr_max (l : List ℚ) (a : ℚ) (ha : 0 ≤ a)
    (h : a < l.foldr max 0) : ∃ x ∈ l, a < x := by
  induction l with
  | nil =>
    simp only [List.foldr_nil] at h
    exact absurd h (not_lt.mpr ha)
  | cons b t ih =>
    simp only [List.foldr_cons] at h
    rcases lt_max_iff.mp h with h | h
    · exact ⟨b, by simp, h⟩
    · obtain ⟨x, hx, hax⟩ := ih h
      exact ⟨x, List.mem_cons_of_mem _ hx, hax⟩

/-- Invariant of the best-candidate selection loop: the running score
never decreases, every processed score is either dominated by the
result or at most 0.7, and the result is either the untouched
accumulator or a processed candidate achieving the final score, which
then strictly exceeds both 0.7 and the initial score. -/
theorem bestCandidate_inv (d : Doc) (qc : Str) (ms : List Location) :
    ∀ (best : Option Location) (bs : ℚ),
      bs ≤ (bestCandidate d qc ms best bs).2 ∧
      (∀ m ∈ ms, scoreOf d qc m ≤ (bestCandidate d qc ms best bs).2 ∨
                 scoreOf d qc m ≤ 7/10) ∧
      (((bestCandidate d qc ms best bs).1 = best ∧
        (bestCandidate d qc ms best bs).2 = bs) ∨
       (∃ m ∈ ms, (bestCandidate d qc ms best bs).1 = some m ∧
                  (bestCandidate d qc ms best bs).2 = scoreOf d qc m ∧
                  7/10 < (bestCandidate d qc ms best bs).2 ∧
                  bs < (bestCandidate d qc ms best bs).2)) := by
  induction ms with
  | nil =>
    intro best bs
    exact ⟨le_refl _, by simp, Or.inl ⟨rfl, rfl⟩⟩
  | cons m rest ih =>
    intro best bs
    by_cases hg : bs < scoreOf d qc m ∧ 7/10 < scoreOf d qc m
    · have heq : bestCandidate d qc (m :: rest) best bs =
          bestCandidate d qc rest (some m) (scoreOf d qc m) := by
        simp only [bestCandidate]
        rw [if_pos hg]
      obtain ⟨ih1, ih2, ih3⟩ := ih (some m) (scoreOf d qc m)
      rw [heq]
      refine ⟨le_trans (le_of_lt hg.1) ih1, ?_, ?_⟩
      · intro x hx
        rcases List.mem_cons.mp hx with rfl | hx
        · exact Or.inl ih1
        · exact ih2 x hx
      · rcases ih3 with ⟨h1, h2⟩ | ⟨m2, hm2, h1, h2, h3, h4⟩
        · exact Or.inr ⟨m, by simp, h1, h2, by rw [h2]; exact hg.2,
            by rw [h2]; exact hg.1⟩
        · exact Or.inr ⟨m2, List.mem_cons_of_mem _ hm2, h1, h2, h3,
            lt_trans hg.1 h4⟩
    · have heq : bestCandidate d qc (m :: rest) best bs =
          bestCandidate d qc rest best bs := by
        simp only [bestCandidate]
        rw [if_neg hg]
      obtain ⟨ih1, ih2, ih3⟩ := ih best bs
      rw [heq]
      refine ⟨ih1, ?_, ?_⟩
      · intro x hx
        rcases List.mem_cons.mp hx with rfl | hx
        · rcases not_and_or.mp hg with h | h
          · exact Or.inl (le_trans (not_lt.mp h) ih1)
          · exact Or.inr (not_lt.mp h)
        · exact ih2 x hx
      · rcases ih3 with h | ⟨m2, hm2, hrest⟩
        · exact Or.inl h
        · exact Or.inr ⟨m2, List.mem_cons_of_mem _ hm2, hrest⟩


/-- Unfolding verifyTextLocation in the ambiguous case when the
selection loop kept no candidate. -/
theorem verifyTextLocation_multi_none (d : Doc) (c : Comment) (orig qc : Str)
    (ha : c.anchor ≠ []) (hq : c.quotedFileContent = some qc)
    (m1 m2 : Location) (rest : List Location)
    (hocc : findAllOccurrences d (normalizeForSearch orig) = m1 :: m2 :: rest)
    (s : ℚ)
    (hbc : bestCandidate d qc (m1 :: m2 :: rest) none 0 = (none, s)) :
    verifyTextLocation d c orig =
      .failure "Could not reliably determine text location" := by
  unfold verifyTextLocation
  rw [if_neg ha]
  simp only [hq]
  rw [hocc]
  show (match bestCandidate d qc (m1 :: m2 :: rest) none 0 with
        | (some m, s) =>
          if 8/10 < s then VerifyResult.success m
          else VerifyResult.failure "Could not reliably determine text location"
        | (none, _) =>
          VerifyResult.failure "Could not reliably determine text location") = _
  rw [hbc]

/-- Unfolding verifyTextLocation in the ambiguous case when the kept
candidate clears the 0.8 threshold. -/
theorem verifyTextLocation_multi_accept (d : Doc) (c : Comment) (orig qc : Str)
    (ha : c.anchor ≠ []) (hq : c.quotedFileContent = some qc)
    (m1 m2 : Location) (rest : List Location)
    (hocc : findAllOccurrences d (normalizeForSearch orig) = m1 :: m2 :: rest)
    (m : Location) (s : ℚ)
    (hbc : bestCandidate d qc (m1 :: m2 :: rest) none 0 = (some m, s))
    (h8 : 8/10 < s) :
    verifyTextLocation d c orig = .success m := by
  unfold verifyTextLocation
  rw [if_neg ha]
  simp only [hq]
  rw [hocc]
  show (match bestCandidate d qc (m1 :: m2 :: rest) none 0 with
        | (some m, s) =>
          if 8/10 < s then VerifyResult.success m
          else VerifyResult.failure "Could not reliably determine text location"
        | (none, _) =>
          VerifyResult.failure "Could not reliably determine text location") = _
  rw [hbc]
  simp [h8]

/-- Unfolding verifyTextLocation in the ambiguous case when the kept
candidate misses the 0.8 threshold. -/
theorem verifyTextLocation_multi_reject (d : Doc) (c : Comment) (orig qc : Str)
    (ha : c.anchor ≠ []) (hq : c.quotedFileContent = some qc)
    (m1 m2 : Location) (rest : List Location)
    (hocc : findAllOccurrences d (normalizeForSearch orig) = m1 :: m2 :: rest)
    (m : Location) (s : ℚ)
    (hbc : bestCandidate d qc (m1 :: m2 :: rest) none 0 = (some m, s))
    (h8 : ¬ 8/10 < s) :
    verifyTextLocation d c orig =
      .failure "Could not reliably determine text location" := by
  unfold verifyTextLocation
  rw [if_neg ha]
  simp only [hq]
  rw [hocc]
  show (match bestCandidate d qc (m1 :: m2 :: rest) none 0 with
        | (some m, s) =>
          if 8/10 < s then VerifyResult.success m
          else VerifyResult.failure "Could not reliably determine text location"
        | (none, _) =>
          VerifyResult.failure "Could not reliably determine text location") = _
  rw [hbc]
  simp [h8]

/-- C4: for a document containing more than one occurrence of the
(normalized) quoted snippet, anchor resolution succeeds iff the best
candidate's context-similarity score against the stored quoted context
strictly exceeds the fixed 0.8 confidence threshold, in which case the
returned candidate is one of the occurrences and attains the maximal
score; otherwise resolution fails. -/
theorem verifyTextLocation_ambiguity_threshold (d : Doc) (c : Comment)
    (orig qc : Str) (ha : c.anchor ≠ []) (hq : c.quotedFileContent = some qc)
    (hmulti : 1 < (findAllOccurrences d (normalizeForSearch orig)).length) :
    ((verifyTextLocation d c orig).isSuccess = true ↔
      8/10 < ((findAllOccurrences d (normalizeForSearch orig)).map
                (scoreOf d qc)).foldr max 0) ∧
    (∀ loc, verifyTextLocation d c orig = .success loc →
      loc ∈ findAllOccurrences d (normalizeForSearch orig) ∧
      scoreOf d qc loc = ((findAllOccurrences d (normalizeForSearch orig)).map
                (scoreOf d qc)).foldr max 0) := by
  cases hocc : findAllOccurrences d (normalizeForSearch orig) with
  | nil => rw [hocc] at hmulti; simp at hmulti
  | cons m1 tl =>
    cases tl with
    | nil => rw [hocc] at hmulti; simp at hmulti
    | cons m2 rest =>
      obtain ⟨inv1, inv2, inv3⟩ := bestCandidate_inv d qc (m1 :: m2 :: rest) none 0
      rcases inv3 with ⟨hp1, hp2⟩ | ⟨m, hm, hp1, hp2, h7, h0⟩
      · have hbc : bestCandidate d qc (m1 :: m2 :: rest) none 0 = (none, 0) :=
          Prod.ext hp1 hp2
        have hv := verifyTextLocation_multi_none d c orig qc ha hq
          m1 m2 rest hocc 0 hbc
        rw [hv]
        refine ⟨⟨fun h => absurd h (by simp [VerifyResult.isSuccess]),
          fun h => ?_⟩, fun loc hloc => absurd hloc (by simp)⟩
        obtain ⟨x, hx, h8⟩ := exists_lt_of_lt_foldr_max _ _ (by norm_num) h
        obtain ⟨m0, hm0, rfl⟩ := List.mem_map.mp hx
        rcases inv2 m0 hm0 with hle | hle
        · rw [hp2] at hle
          exact absurd (lt_of_lt_of_le h8 hle) (by norm_num)
        · exact absurd (lt_of_lt_of_le h8 hle) (by norm_num)
      · have hbc : bestCandidate d qc (m1 :: m2 :: rest) none 0 =
            (some m, scoreOf d qc m) := Prod.ext hp1 hp2
        by_cases h8 : 8/10 < scoreOf d qc m
        · have hfmax : ((m1 :: m2 :: rest).map (scoreOf d qc)).foldr max 0 =
              scoreOf d qc m := by
            apply le_antisymm
            · apply foldr_max_le _ _ (le_of_lt (lt_trans (by norm_num)
                (hp2 ▸ h7)))
              intro x hx
              obtain ⟨m0, hm0, rfl⟩ := List.mem_map.mp hx
              rcases inv2 m0 hm0 with hle | hle
              · exact hp2 ▸ hle
              · exact le_trans hle (le_of_lt (hp2 ▸ h7))
            · exact le_foldr_max _ _ (List.mem_map_of_mem _ hm)
          have hv := verifyTextLocation_multi_accept d c orig qc ha hq
            m1 m2 rest hocc m (scoreOf d qc m) hbc h8
          rw [hv]
          refine ⟨⟨fun _ => ?_, fun _ => rfl⟩, fun loc hloc => ?_⟩
          · rw [hfmax]; exact h8
          · have hml : m = loc := by injection hloc
            subst hml
            exact ⟨hm, by rw [hfmax]⟩
        · have hv := verifyTextLocation_multi_reject d c orig qc ha hq
            m1 m2 rest hocc m (scoreOf d qc m) hbc h8
          rw [hv]
          refine ⟨⟨fun hfalse => absurd hfalse (by simp [VerifyResult.isSuccess]),
            fun hmax => ?_⟩, fun loc hloc => absurd hloc (by simp)⟩
          obtain ⟨x, hx, hxx⟩ := exists_lt_of_lt_foldr_max _ _ (by norm_num) hmax
          obtain ⟨m0, hm0, rfl⟩ := List.mem_map.mp hx
          rcases inv2 m0 hm0 with hle | hle
          · exact absurd (lt_of_lt_of_le hxx (hp2 ▸ hle)) h8
          · exact absurd (lt_of_lt_of_le hxx hle) (by norm_num)

/-- C4 witness: a document with two occurrences of "dog"; the first
occurrence's context equals the stored quoted context (score 1), which
exceeds the 0.8 threshold, so resolution succeeds via the threshold
characterization. -/
theorem verifyTextLocation_ambiguity_threshold_witness :
    (verifyTextLocation ⟨["a dog b".toList, "c dog d".toList]⟩
      ⟨"AI: reword".toList, some ("a dog b".toList), "anch".toList, false, []⟩
      ("dog".toList)).isSuccess = true := by
  have hocc : findAllOccurrences ⟨["a dog b".toList, "c dog d".toList]⟩
      (normalizeForSearch ("dog".toList)) =
      [⟨0, 2, 4, 2, 4⟩, ⟨1, 2, 4, 2, 4⟩] := by decide
  have h1 : scoreOf ⟨["a dog b".toList, "c dog d".toList]⟩ ("a dog b".toList)
      ⟨0, 2, 4, 2, 4⟩ = 1 := by decide
  apply (verifyTextLocation_ambiguity_threshold
    ⟨["a dog b".toList, "c dog d".toList]⟩
    ⟨"AI: reword".toList, some ("a dog b".toList), "anch".toList, false, []⟩
    ("dog".toList) ("a dog b".toList)
    (by decide) rfl (by rw [hocc]; decide)).1.mpr
  rw [hocc]
  calc (8:ℚ)/10 < 1 := by norm_num
    _ = scoreOf ⟨["a dog b".toList, "c dog d".toList]⟩ ("a dog b".toList)
          ⟨0, 2, 4, 2, 4⟩ := h1.symm
    _ ≤ _ := le_foldr_max _ _ (List.mem_map_of_mem _ (by simp))

/-- RETRY_CONFIG.MAX_ATTEMPTS (src/Code.js 100-105). -/
def MAX_ATTEMPTS : ℕ := 3

/-- RETRY_CONFIG.INITIAL_DELAY_MS (src/Code.js 100-105). -/
def INITIAL_DELAY_MS : ℚ := 1000

/-- RETRY_CONFIG.MAX_DELAY_MS (src/Code.js 100-105). -/
def MAX_DELAY_MS : ℚ := 5000

/-- calculateBackoffDelay (src/Code.js 122-129): exponential backoff
capped at MAX_DELAY_MS, plus the sampled jitter Math.random()*1000,
passed here explicitly. -/
def calculateBackoffDelay (attempt : ℕ) (jitter : ℚ) : ℚ :=
  min (INITIAL_DELAY_MS * 2 ^ attempt) MAX_DELAY_MS + jitter

/-- The result of retryCommentUpdate: its success flag, the error it
carries, and the details.attempts diagnostic of the failure return
(src/Code.js 371-381), plus instrumentation the source only logs or
sleeps on: the number of attempts actually made and the backoff delays
slept. -/
structure RetryOutcome (ε : Type) where
  success : Bool
  error : Option ε
  attempts : ℕ
  attemptsMade : ℕ
  delays : List ℚ
  deriving DecidableEq

/-- The retry loop of retryCommentUpdate (src/Code.js 168-359), with
the Drive round-trip and its echoed-response verification of attempt i
modelled by `outcomes i` (the error thrown, or none when the attempt
succeeds and verifies) and the jitter sample of the backoff after
attempt i given by `jitter i`.  `fuel` is the number of attempts still
allowed and `idx` the current 0-based attempt index; the loop sleeps
only when another attempt remains (src/Code.js 349-357). -/
def retryGo {ε : Type} (outcomes : ℕ → Option ε) (jitter : ℕ → ℚ) :
    ℕ → ℕ → Option ε → List ℚ → RetryOutcome ε
  | 0, idx, lastError, delays =>
    { success := false, error := lastError, attempts := MAX_ATTEMPTS,
      attemptsMade := idx, delays := delays }
  | fuel + 1, idx, _, delays =>
    match outcomes idx with
    | none =>
      { success := true, error := none, attempts := idx + 1,
        attemptsMade := idx + 1, delays := delays }
    | some e =>
      if fuel = 0 then retryGo outcomes jitter fuel (idx + 1) (some e) delays
      else retryGo outcomes jitter fuel (idx + 1) (some e)
        (delays ++ [calculateBackoffDelay idx (jitter idx)])

/-- retryCommentUpdate (src/Code.js 140-382): parameter validation
(an empty content string is falsy and rejected before any attempt; the
file and comment ids are modelled as well-formed), then up to
MAX_ATTEMPTS attempts with exponential backoff between them. -/
def retryCommentUpdate {ε : Type} (outcomes : ℕ → Option ε) (jitter : ℕ → ℚ)
    (content : Str) : RetryOutcome ε :=
  if content = [] then
    { success := false, error := none, attempts := 0, attemptsMade := 0,
      delays := [] }
  else retryGo outcomes jitter MAX_ATTEMPTS 0 none []

/-- C8: the annotation update client makes at most 3 attempts; the
delay slept before retry i (0-indexed) equals min(1000·2^i, 5000) plus
the jitter sample, hence lies in [min(1000·2^i,5000),
min(1000·2^i,5000)+1000); and when all three attempts fail the result
is a failure carrying the last error with attempts = 3. -/
theorem retryCommentUpdate_spec {ε : Type} (outcomes : ℕ → Option ε)
    (jitter : ℕ → ℚ) (content : Str) (hc : content ≠ [])
    (hj : ∀ i, 0 ≤ jitter i ∧ jitter i < 1000) :
    (retryCommentUpdate outcomes jitter content).attemptsMade ≤ 3 ∧
    (∀ i, i < (retryCommentUpdate outcomes jitter content).delays.length →
      (retryCommentUpdate outcomes jitter content).delays.getD i 0 =
        min (1000 * 2 ^ i) 5000 + jitter i ∧
      min (1000 * 2 ^ i) 5000 ≤
        (retryCommentUpdate outcomes jitter content).delays.getD i 0 ∧
      (retryCommentUpdate outcomes jitter content).delays.getD i 0 <
        min (1000 * 2 ^ i) 5000 + 1000) ∧
    ((∀ i, i < 3 → (outcomes i).isSome) →
      (retryCommentUpdate outcomes jitter content).success = false ∧
      (retryCommentUpdate outcomes jitter content).error = outcomes 2 ∧
      (retryCommentUpdate outcomes jitter content).attempts = 3) := by
  cases h0 : outcomes 0 with
  | none =>
    have hres : retryCommentUpdate outcomes jitter content =
        ⟨true, none, 1, 1, []⟩ := by
      unfold retryCommentUpdate
      rw [if_neg hc]
      simp [retryGo, h0]
    rw [hres]
    refine ⟨by norm_num, ?_, ?_⟩
    · intro i hi
      simp at hi
    · intro hall
      have := hall 0 (by norm_num)
      rw [h0] at this
      simp at this
  | some e0 =>
    cases h1 : outcomes 1 with
    | none =>
      have hres : retryCommentUpdate outcomes jitter content =
          ⟨true, none, 2, 2, [calculateBackoffDelay 0 (jitter 0)]⟩ := by
        unfold retryCommentUpdate
        rw [if_neg hc]
        simp [retryGo, h0, h1]
      rw [hres]
      refine ⟨by norm_num, ?_, ?_⟩
      · intro i hi
        simp only [List.length_cons, List.length_nil] at hi
        interval_cases i
        refine ⟨rfl, le_add_of_nonneg_right (hj 0).1, add_lt_add_left (hj 0).2 _⟩
      · intro hall
        have := hall 1 (by norm_num)
        rw [h1] at this
        simp at this
    | some e1 =>
      cases h2 : outcomes 2 with
      | none =>
        have hres : retryCommentUpdate outcomes jitter content =
            ⟨true, none, 3, 3,
              [calculateBackoffDelay 0 (jitter 0),
               calculateBackoffDelay 1 (jitter 1)]⟩ := by
          unfold retryCommentUpdate
          rw [if_neg hc]
          simp [retryGo, h0, h1, h2]
        rw [hres]
        refine ⟨by norm_num, ?_, ?_⟩
        · intro i hi
          simp only [List.length_cons, List.length_nil] at hi
          interval_cases i
          · exact ⟨rfl, le_add_of_nonneg_right (hj 0).1,
              add_lt_add_left (hj 0).2 _⟩
          · exact ⟨rfl, le_add_of_nonneg_right (hj 1).1,
              add_lt_add_left (hj 1).2 _⟩
        · intro hall
          have := hall 2 (by norm_num)
          rw [h2] at this
          simp at this
      | some e2 =>
        have hres : retryCommentUpdate outcomes jitter content =
            ⟨false, some e2, MAX_ATTEMPTS, 3,
              [calculateBackoffDelay 0 (jitter 0),
               calculateBackoffDelay 1 (jitter 1)]⟩ := by
          unfold retryCommentUpdate
          rw [if_neg hc]
          simp [retryGo, h0, h1, h2]
        rw [hres]
        refine ⟨by norm_num, ?_, fun _ => ⟨rfl, rfl, rfl⟩⟩
        intro i hi
        simp only [List.length_cons, List.length_nil] at hi
        interval_cases i
        · exact ⟨rfl, le_add_of_nonneg_right (hj 0).1,
            add_lt_add_left (hj 0).2 _⟩
        · exact ⟨rfl, le_add_of_nonneg_right (hj 1).1,
            add_lt_add_left (hj 1).2 _⟩

/-- C8 witness: with every attempt failing, the client reports failure
carrying the last error with attempts = 3, having made at most 3
attempts. -/
theorem retryCommentUpdate_spec_witness :
    (retryCommentUpdate (fun i => some i) (fun _ => 1/2) ("x".toList)).success
        = false ∧
    (retryCommentUpdate (fun i => some i) (fun _ => 1/2) ("x".toList)).error
        = some 2 ∧
    (retryCommentUpdate (fun i => some i) (fun _ => 1/2) ("x".toList)).attempts
        = 3 ∧
    (retryCommentUpdate (fun i => some i) (fun _ => 1/2)
        ("x".toList)).attemptsMade ≤ 3 := by
  have h := retryCommentUpdate_spec (fun i => some i) (fun _ => 1/2)
    ("x".toList) (by decide) (fun i => by norm_num)
  obtain ⟨hm, _, hfail⟩ := h
  obtain ⟨hs, he, ha⟩ := hfail (fun i _ => rfl)
  exact ⟨hs, by rw [he], ha, hm⟩

/-- The operations performed against the collaborators during one apply
call, in order.  A call to the conflict detector (checkDocumentChanges)
would be recorded as `conflictCheck`. -/
inductive Event
  | anchorResolved
  | conflictCheck (changed targetAreaChanged : Bool)
  | docDelete (elemIdx start endIncl : ℕ)
  | docInsert (elemIdx offset : ℕ) (text : Str)
  | storeUpdateReq (content : Str) (desiredResolved : Option Bool)
  | replyCreate
  deriving DecidableEq

def Event.isDocMutation : Event → Bool
  | .docDelete _ _ _ => true
  | .docInsert _ _ _ => true
  | _ => false

def Event.isConflictCheck : Event → Bool
  | .conflictCheck _ _ => true
  | _ => false

/-- Classification produced by the conflict detector. -/
inductive ConflictStatus
  | unchanged
  | changedElsewhere
  | changedInTarget
  deriving DecidableEq

/-- checkDocumentChanges (src/Code.js 751-773): identical full text
means no change; otherwise compare the anchored slice of the
request-time text against the current text of the located element to
classify the change as inside or outside the target area.  (Defined in
src/Code.js but never invoked by applyAIEdit — see C1.) -/
def checkDocumentChanges (d : Doc) (initialVersion currentText : Str)
    (loc : Location) : ConflictStatus :=
  if fullText d = initialVersion then .unchanged
  else if subList currentText loc.anchorStart (loc.anchorEnd + 1) =
      subList (d.elemText loc.elemIdx) loc.startOffset (loc.endOffset + 1) then
    .changedElsewhere
  else .changedInTarget

/-- Outcome of one applyAIEdit call: the final document, the returned
flag or wrapped thrown error, the trace of collaborator operations,
and the comment's final stored resolved flag. -/
structure ApplyResult where
  doc : Doc
  ok : Bool
  error : Option String
  events : List Event
  storeResolved : Bool
  deriving DecidableEq

/-- The collaborator environment of one applyAIEdit call: the comment
record the store holds for the given id (none: missing or invalid id),
the success of each annotation-update attempt, whether the resolving
reply creation succeeds and verifies, and an optional injected faulty
write (the text the surface actually inserts instead of the requested
one), modelling the spec's forced verification failure. -/
structure ApplyEnv where
  comment : Option Comment
  updateOutcomes : ℕ → Bool
  replyOk : Bool
  insertFault : Option Str

/-- The outer catch of applyAIEdit (src/Code.js 1195-1205) wraps every
thrown error message. -/
def wrapErr (msg : String) : String :=
  "Failed to apply changes: " ++ msg ++
  "\n\nPlease try again. If the problem persists, " ++
  "verify the text has not been modified and the comment still exists."

/-- The comment content written on acceptance (src/Code.js 1036-1038). -/
def acceptContent (originalText sanitizedText : Str) : Str :=
  STATE_ACCEPTED ++
  "\n\nChanges applied successfully:\n\nOriginal text:\n".toList ++
  originalText ++ "\n\nNew text:\n".toList ++ sanitizedText

/-- The comment content written on rejection (src/Code.js 1180). -/
def rejectContent : Str :=
  STATE_REJECTED ++
  "\n\nChanges rejected.\n\nYou can edit the comment and try again.".toList

/-- Whether a retryCommentUpdate call succeeds, given the per-attempt
outcomes (true = the attempt succeeds and its echoed response
verifies). -/
def retrySuccess (outcomes : ℕ → Bool) (content : Str) : Bool :=
  (retryCommentUpdate (fun i => if outcomes i then none else some ())
    (fun _ => 0) content).success

/-- The deleteText + insertText mutation at the resolved offsets
(src/Code.js 948-949): delete the inclusive range, insert the written
text at the start offset. -/
def mutatedElem (t : Str) (loc : Location) (written : Str) : Str :=
  insertAt (deleteRange t loc.startOffset loc.endOffset) loc.startOffset written

/-- The rollback mutation (src/Code.js 997-998, 1102-1103, 1145-1147):
delete the sanitized-length window at the start offset and re-insert
the original text there. -/
def rollbackElem (t : Str) (loc : Location) (san orig : Str) : Str :=
  insertAt (deleteRange t loc.startOffset (loc.startOffset + san.length - 1))
    loc.startOffset orig

/-- The catch-block restoration of applyAIEdit (src/Code.js 1112-1172)
followed by the outer wrap: re-read the element, restore the original
text only when the window at the insertion offset still equals the
sanitized replacement, then surface the error. -/
def catchRestore (d : Doc) (ev : List Event) (loc : Location)
    (san orig : Str) (msg : String) : ApplyResult :=
  if subList (d.elemText loc.elemIdx) loc.startOffset
      (loc.startOffset + san.length) = san then
    ⟨d.setElemText loc.elemIdx (rollbackElem (d.elemText loc.elemIdx) loc san orig),
     false, some (wrapErr msg),
     ev ++ [.docDelete loc.elemIdx loc.startOffset
         (loc.startOffset + san.length - 1),
       .docInsert loc.elemIdx loc.startOffset orig],
     false⟩
  else ⟨d, false, some (wrapErr msg), ev, false⟩

/-- The Accept branch of applyAIEdit (src/Code.js 915-1173): bounds
check, delete-then-insert at the resolved offsets (what is actually
written is the injected fault when one is modelled), read-back
verification of the mutated window, the comment update with retry, the
resolving reply on update success (reply failure is swallowed,
src/Code.js 1081-1087), the guarded rollback when the update fails
after retries (src/Code.js 1098-1104) followed by the thrown error,
and on verification failure the guarded inline restore (src/Code.js
982-1017) followed by the thrown error; every throw passes through the
catch-block restoration (catchRestore). -/
def applyAccept (d : Doc) (env : ApplyEnv) (orig : Str) (loc : Location)
    (san : Str) : ApplyResult :=
  if (d.elemText loc.elemIdx).length ≤ loc.endOffset then
    ⟨d, false, some (wrapErr "Invalid text range"), [.anchorResolved], false⟩
  else if subList (mutatedElem (d.elemText loc.elemIdx) loc (env.insertFault.getD san))
      loc.startOffset (loc.startOffset + san.length) = san then
    if retrySuccess env.updateOutcomes (acceptContent orig san) then
      ⟨d.setElemText loc.elemIdx
        (mutatedElem (d.elemText loc.elemIdx) loc (env.insertFault.getD san)),
       true, none,
       [.anchorResolved, .docDelete loc.elemIdx loc.startOffset loc.endOffset,
        .docInsert loc.elemIdx loc.startOffset san,
        .storeUpdateReq (acceptContent orig san) none, .replyCreate],
       env.replyOk⟩
    else
      if subList (mutatedElem (d.elemText loc.elemIdx) loc (env.insertFault.getD san))
          loc.startOffset (loc.startOffset + san.length) = san then
        catchRestore
          (d.setElemText loc.elemIdx
            (rollbackElem
              (mutatedElem (d.elemText loc.elemIdx) loc (env.insertFault.getD san))
              loc san orig))
          [.anchorResolved, .docDelete loc.elemIdx loc.startOffset loc.endOffset,
           .docInsert loc.elemIdx loc.startOffset san,
           .storeUpdateReq (acceptContent orig san) none,
           .docDelete loc.elemIdx loc.startOffset
             (loc.startOffset + san.length - 1),
           .docInsert loc.elemIdx loc.startOffset orig]
          loc san orig "Failed to mark comment as accepted"
      else
        catchRestore
          (d.setElemText loc.elemIdx
            (mutatedElem (d.elemText loc.elemIdx) loc (env.insertFault.getD san)))
          [.anchorResolved, .docDelete loc.elemIdx loc.startOffset loc.endOffset,
           .docInsert loc.elemIdx loc.startOffset san,
           .storeUpdateReq (acceptContent orig san) none]
          loc san orig "Failed to mark comment as accepted"
  else
    if subList (mutatedElem (d.elemText loc.elemIdx) loc (env.insertFault.getD san))
        loc.startOffset (loc.startOffset + san.length) = san then
      catchRestore
        (d.setElemText loc.elemIdx
          (rollbackElem
            (mutatedElem (d.elemText loc.elemIdx) loc (env.insertFault.getD san))
            loc san orig))
        [.anchorResolved, .docDelete loc.elemIdx loc.startOffset loc.endOffset,
         .docInsert loc.elemIdx loc.startOffset san,
         .docDelete loc.elemIdx loc.startOffset
           (loc.startOffset + san.length - 1),
         .docInsert loc.elemIdx loc.startOffset orig]
        loc san orig "Failed to verify text replacement"
    else
      catchRestore
        (d.setElemText loc.elemIdx
          (mutatedElem (d.elemText loc.elemIdx) loc (env.insertFault.getD san)))
        [.anchorResolved, .docDelete loc.elemIdx loc.startOffset loc.endOffset,
         .docInsert loc.elemIdx loc.startOffset san]
        loc san orig "Failed to verify text replacement"

/-- The Reject branch of applyAIEdit (src/Code.js 1174-1193): no
document access at all; one comment update transitioning the record to
REJECTED with resolved: false.  The stored resolved flag is untouched
(the update writes content only). -/
def applyReject (d : Doc) (env : ApplyEnv) (initialResolved : Bool) :
    ApplyResult :=
  if retrySuccess env.updateOutcomes rejectContent then
    ⟨d, true, none,
     [.anchorResolved, .storeUpdateReq rejectContent (some false)],
     initialResolved⟩
  else
    ⟨d, false, some (wrapErr "Failed to mark comment as rejected"),
     [.anchorResolved, .storeUpdateReq rejectContent (some false)],
     initialResolved⟩

/-- Outcome of the validation prefix of applyAIEdit:
either a thrown error (recording whether the anchor had already been
resolved when it was thrown) or the data the decision branches run
with. -/
inductive PreOutcome
  | fail (anchorWasResolved : Bool) (msg : String)
  | go (c : Comment) (orig : Str) (loc : Location) (san : Str)
  deriving DecidableEq

/-- The validation prefix of applyAIEdit (src/Code.js 798-913), common
to both decisions: parameter check (suggestedText must be truthy, even
on Reject), comment lookup, resolved / content / quoted-text checks,
anchor resolution, and sanitization (performed after anchor resolution
and before the Accept/Reject branch; an empty sanitized result is a
hard failure for both decisions). -/
def applyPre (d : Doc) (storedComment : Option Comment) (suggestedText : Str) :
    PreOutcome :=
  if suggestedText = [] then
    .fail false "Missing required parameters for applying AI edit"
  else
    match storedComment with
    | none => .fail false "The comment no longer exists or is inaccessible"
    | some c =>
      if c.resolved then .fail false "This comment has already been resolved"
      else if c.content = [] then .fail false "Comment is missing content"
      else
        match c.quotedFileContent with
        | none => .fail false "The comment is missing the original text selection"
        | some orig =>
          if orig = [] then
            .fail false "The comment is missing the original text selection"
          else
            match verifyTextLocation d c orig with
            | .failure e => .fail false e
            | .success loc =>
              if sanitizeText suggestedText = [] then
                .fail true "The suggested text is empty after sanitization"
              else .go c orig loc (sanitizeText suggestedText)

/-- applyAIEdit (src/Code.js 784-1206) over the modelled document and
collaborators. -/
def applyAIEdit (d : Doc) (env : ApplyEnv) (suggestedText : Str)
    (accepted : Bool) : ApplyResult :=
  match applyPre d env.comment suggestedText with
  | .fail ra msg =>
    ⟨d, false, some (wrapErr msg),
     if ra then [.anchorResolved] else [],
     (env.comment.map Comment.resolved).getD false⟩
  | .go c orig loc san =>
    if accepted then applyAccept d env orig loc san
    else applyReject d env c.resolved

/-- The annotation-store update requests in a trace, each with the
desired resolved value it carries. -/
def ApplyResult.updateReqs (r : ApplyResult) : List (Str × Option Bool) :=
  r.events.filterMap (fun e =>
    match e with
    | .storeUpdateReq content dr => some (content, dr)
    | _ => none)

/-- Inversion of a successful validation prefix: all the checks it
performed, and the data it hands to the decision branches. -/
theorem applyPre_go {d : Doc} {storedComment : Option Comment} {sug : Str}
    {c : Comment} {orig : Str} {loc : Location} {san : Str}
    (h : applyPre d storedComment sug = .go c orig loc san) :
    storedComment = some c ∧ c.resolved = false ∧ c.content ≠ [] ∧
    c.quotedFileContent = some orig ∧ orig ≠ [] ∧
    verifyTextLocation d c orig = .success loc ∧
    san = sanitizeText sug ∧ sanitizeText sug ≠ [] ∧ sug ≠ [] := by
  by_cases hs : sug = []
  · simp [applyPre, hs] at h
  cases storedComment with
  | none => simp [applyPre, hs] at h
  | some c0 =>
    by_cases hres : c0.resolved = true
    · simp [applyPre, hs, hres] at h
    by_cases hcon : c0.content = []
    · simp [applyPre, hs, hres, hcon] at h
    cases hq : c0.quotedFileContent with
    | none => simp [applyPre, hs, hres, hcon, hq] at h
    | some orig0 =>
      by_cases ho : orig0 = []
      · simp [applyPre, hs, hres, hcon, hq, ho] at h
      cases hv : verifyTextLocation d c0 orig0 with
      | failure e => simp [applyPre, hs, hres, hcon, hq, ho, hv] at h
      | success loc0 =>
        by_cases hsan : sanitizeText sug = []
        · simp [applyPre, hs, hres, hcon, hq, ho, hv, hsan] at h
        · simp [applyPre, hs, hres, hcon, hq, ho, hv, hsan] at h
          obtain ⟨hc, horig, hloc, hsan2⟩ := h
          subst hc
          subst horig
          subst hloc
          subst hsan2
          refine ⟨rfl, by simpa using hres, hcon, hq, ho, hv, rfl, hsan, hs⟩

/-- C7: a Reject apply never mutates the document (the final document
equals the initial one and the trace contains no delete or insert),
every annotation update it requests carries resolved = false, and the
stored resolved flag is left exactly as it was — so it stays false,
and two consecutive Reject calls on the same record behave
identically. -/
theorem applyAIEdit_reject_frame (d : Doc) (env : ApplyEnv) (sug : Str) :
    (applyAIEdit d env sug false).doc = d ∧
    (∀ e ∈ (applyAIEdit d env sug false).events, e.isDocMutation = false) ∧
    (∀ q ∈ (applyAIEdit d env sug false).updateReqs, q.2 = some false) ∧
    (applyAIEdit d env sug false).storeResolved =
      (env.comment.map Comment.resolved).getD false := by
  cases hpre : applyPre d env.comment sug with
  | fail ra msg =>
    have happ : applyAIEdit d env sug false =
        ⟨d, false, some (wrapErr msg),
         if ra then [.anchorResolved] else [],
         (env.comment.map Comment.resolved).getD false⟩ := by
      unfold applyAIEdit
      rw [hpre]
    rw [happ]
    refine ⟨rfl, ?_, ?_, rfl⟩
    · intro e he
      cases ra
      · simp at he
      · simp at he
        subst he
        rfl
    · intro q hq
      cases ra <;> simp [ApplyResult.updateReqs] at hq
  | go c orig loc san =>
    obtain ⟨hco, hres, -, -, -, -, -, -, -⟩ := applyPre_go hpre
    have happ : applyAIEdit d env sug false = applyReject d env c.resolved := by
      unfold applyAIEdit
      rw [hpre]
      rfl
    rw [happ]
    unfold applyReject
    by_cases hr : retrySuccess env.updateOutcomes rejectContent = true
    · rw [if_pos hr]
      refine ⟨rfl, ?_, ?_, ?_⟩
      · intro e he
        simp at he
        rcases he with rfl | rfl <;> rfl
      · intro q hq
        simp [ApplyResult.updateReqs] at hq
        rw [hq]
      · simp [hco]
    · rw [if_neg hr]
      refine ⟨rfl, ?_, ?_, ?_⟩
      · intro e he
        simp at he
        rcases he with rfl | rfl <;> rfl
      · intro q hq
        simp [ApplyResult.updateReqs] at hq
        rw [hq]
      · simp [hco]

/-- C7 witness: a concrete Reject call leaves the document untouched
and requests an update with resolved = false. -/
theorem applyAIEdit_reject_frame_witness :
    (applyAIEdit ⟨["Say hello world today".toList]⟩
      ⟨some ⟨"AI: improve".toList, some ("hello world".toList), "a".toList,
        false, []⟩, fun _ => true, true, none⟩
      ("hi".toList) false).doc = ⟨["Say hello world today".toList]⟩ ∧
    (rejectContent, some false).2 = some false := by
  refine ⟨(applyAIEdit_reject_frame _ _ _).1, ?_⟩
  have h := (applyAIEdit_reject_frame ⟨["Say hello world today".toList]⟩
    ⟨some ⟨"AI: improve".toList, some ("hello world".toList), "a".toList,
      false, []⟩, fun _ => true, true, none⟩ ("hi".toList)).2.2.1
  exact h (rejectContent, some false) (by decide)

/-- C9: when the replacement text is missing or empty, or sanitizes to
the empty string, the apply call fails with an error before any
document mutation and before any annotation-store update — for both
decisions, including Reject. -/
theorem applyAIEdit_empty_replacement (d : Doc) (env : ApplyEnv)
    (sug : Str) (accepted : Bool)
    (h : sug = [] ∨ sanitizeText sug = []) :
    (applyAIEdit d env sug accepted).ok = false ∧
    (applyAIEdit d env sug accepted).error.isSome = true ∧
    (applyAIEdit d env sug accepted).doc = d ∧
    (applyAIEdit d env sug accepted).updateReqs = [] ∧
    (∀ e ∈ (applyAIEdit d env sug accepted).events,
      e.isDocMutation = false) := by
  cases hp : applyPre d env.comment sug with
  | go c orig loc san =>
    obtain ⟨-, -, -, -, -, -, -, hsan, hs⟩ := applyPre_go hp
    rcases h with h | h
    · exact absurd h hs
    · exact absurd h hsan
  | fail ra msg =>
    have happ : applyAIEdit d env sug accepted =
        ⟨d, false, some (wrapErr msg),
         if ra then [.anchorResolved] else [],
         (env.comment.map Comment.resolved).getD false⟩ := by
      unfold applyAIEdit
      rw [hp]
    rw [happ]
    refine ⟨rfl, rfl, rfl, ?_, ?_⟩
    · cases ra <;> simp [ApplyResult.updateReqs]
    · intro e he
      cases ra
      · simp at he
      · simp at he
        subst he
        rfl

/-- C9 witness: a replacement consisting only of control characters
sanitizes to the empty string; the Reject call fails with no update
requested. -/
theorem applyAIEdit_empty_replacement_witness :
    (applyAIEdit ⟨["Say hello world today".toList]⟩
      ⟨some ⟨"AI: improve".toList, some ("hello world".toList), "a".toList,
        false, []⟩, fun _ => true, true, none⟩
      ("\t\n".toList) false).ok = false ∧
    (applyAIEdit ⟨["Say hello world today".toList]⟩
      ⟨some ⟨"AI: improve".toList, some ("hello world".toList), "a".toList,
        false, []⟩, fun _ => true, true, none⟩
      ("\t\n".toList) false).updateReqs = [] :=
  ⟨(applyAIEdit_empty_replacement _ _ _ _ (Or.inr (by decide))).1,
   (applyAIEdit_empty_replacement _ _ _ _ (Or.inr (by decide))).2.2.2.1⟩

/-- C1: a concrete Accept apply that succeeds and mutates the document
while its trace contains no conflict check.  applyAIEdit (src/Code.js
784-1206) never re-captures a document snapshot and never invokes the
conflict detector checkDocumentChanges (src/Code.js 751-773 — dead
code in this revision, though the earlier draft in
src/unnamed/part_001 calls it between anchor resolution and the
mutation), so no non-Unchanged classification ever blocks an apply
before mutation, contrary to the claim. -/
theorem applyAIEdit_accept_skips_conflict_detection :
    (applyAIEdit ⟨["Say hello world today".toList]⟩
      ⟨some ⟨"AI: improve".toList, some ("hello world".toList), "a".toList,
        false, []⟩, fun _ => true, true, none⟩ ("hi".toList) true).ok = true ∧
    (applyAIEdit ⟨["Say hello world today".toList]⟩
      ⟨some ⟨"AI: improve".toList, some ("hello world".toList), "a".toList,
        false, []⟩, fun _ => true, true, none⟩ ("hi".toList) true).doc =
      ⟨["Say hi today".toList]⟩ ∧
    (⟨["Say hi today".toList]⟩ : Doc) ≠ ⟨["Say hello world today".toList]⟩ ∧
    ((applyAIEdit ⟨["Say hello world today".toList]⟩
      ⟨some ⟨"AI: improve".toList, some ("hello world".toList), "a".toList,
        false, []⟩, fun _ => true, true, none⟩
      ("hi".toList) true).events.any Event.isDocMutation) = true ∧
    ((applyAIEdit ⟨["Say hello world today".toList]⟩
      ⟨some ⟨"AI: improve".toList, some ("hello world".toList), "a".toList,
        false, []⟩, fun _ => true, true, none⟩
      ("hi".toList) true).events.all
        (fun e => !(e.isConflictCheck))) = true := by
  decide

/-- C3: a post-mutation verification failure does not roll the
document back.  With an injected mismatched write ("zzz" instead of
the sanitized "hi") the read-back verification fails, but the restore
of src/Code.js 992-1010 (and the catch-block restore of 1119-1163) is
guarded by the mutated window still equalling the sanitized text —
the negation of the failure condition — so the faulted text stays in
place: the call fails and the final document is the mutated one, not
the pre-apply state. -/
theorem applyAIEdit_verification_failure_no_rollback :
    (applyAIEdit ⟨["Say hello world today".toList]⟩
      ⟨some ⟨"AI: improve".toList, some ("hello world".toList), "a".toList,
        false, []⟩, fun _ => true, true, some ("zzz".toList)⟩
      ("hi".toList) true).ok = false ∧
    (applyAIEdit ⟨["Say hello world today".toList]⟩
      ⟨some ⟨"AI: improve".toList, some ("hello world".toList), "a".toList,
        false, []⟩, fun _ => true, true, some ("zzz".toList)⟩
      ("hi".toList) true).error.isSome = true ∧
    (applyAIEdit ⟨["Say hello world today".toList]⟩
      ⟨some ⟨"AI: improve".toList, some ("hello world".toList), "a".toList,
        false, []⟩, fun _ => true, true, some ("zzz".toList)⟩
      ("hi".toList) true).doc = ⟨["Say zzz today".toList]⟩ ∧
    (⟨["Say zzz today".toList]⟩ : Doc) ≠ ⟨["Say hello world today".toList]⟩ := by
  decide

/-- C2 counterexample: an Accept apply in which the mutation is
performed and verified and every annotation-update attempt then
fails: the engine rolls the document back (the final document equals
the pre-apply one; the sanitized replacement is nowhere in it) and
the call fails with an error — it does not keep the mutated text and
does not return success with a warning. -/
theorem applyAIEdit_store_failure_rolls_back_cex :
    (applyAIEdit ⟨["Say hello world today".toList]⟩
      ⟨some ⟨"AI: improve".toList, some ("hello world".toList), "a".toList,
        false, []⟩, fun _ => false, false, none⟩
      ("hi".toList) true).ok = false ∧
    (applyAIEdit ⟨["Say hello world today".toList]⟩
      ⟨some ⟨"AI: improve".toList, some ("hello world".toList), "a".toList,
        false, []⟩, fun _ => false, false, none⟩
      ("hi".toList) true).error.isSome = true ∧
    (applyAIEdit ⟨["Say hello world today".toList]⟩
      ⟨some ⟨"AI: improve".toList, some ("hello world".toList), "a".toList,
        false, []⟩, fun _ => false, false, none⟩
      ("hi".toList) true).doc = ⟨["Say hello world today".toList]⟩ ∧
    strIncludes (fullText (applyAIEdit ⟨["Say hello world today".toList]⟩
      ⟨some ⟨"AI: improve".toList, some ("hello world".toList), "a".toList,
        false, []⟩, fun _ => false, false, none⟩
      ("hi".toList) true).doc) ("hi".toList) = false := by
  decide

/-- Setting an index to the value it already holds is the identity. -/
theorem set_getD_self {α : Type} (l : List α) (i : ℕ) (dflt : α) :
    l.set i (l.getD i dflt) = l := by
  induction l generalizing i with
  | nil => simp
  | cons a t ih =>
    cases i with
    | zero => simp
    | succ n => simpa using ih n

/-- Writing back an element's own text leaves the document unchanged. -/
theorem setElemText_elemText (d : Doc) (i : ℕ) :
    d.setElemText i (d.elemText i) = d := by
  cases d with
  | mk es =>
    simp only [Doc.setElemText, Doc.elemText, Doc.mk.injEq]
    exact set_getD_self es i []

/-- take at exactly the left length of an append. -/
theorem take_append_exact {α : Type} (X Y : List α) (a : ℕ)
    (ha : a = X.length) : (X ++ Y).take a = X := by
  subst ha
  exact List.take_left X Y

/-- drop at exactly the left length of an append. -/
theorem drop_append_exact {α : Type} (X Y : List α) (a : ℕ)
    (ha : a = X.length) : (X ++ Y).drop a = Y := by
  subst ha
  exact List.drop_left X Y

/-- Deleting the inclusive range covering exactly the middle part of a
three-way split removes it. -/
theorem deleteRange_splice (X mid R : Str) (a : ℕ) (ha : a = X.length)
    (hm : mid ≠ []) :
    deleteRange (X ++ mid ++ R) a (a + mid.length - 1) = X ++ R := by
  unfold deleteRange
  have hm1 : 1 ≤ mid.length := List.length_pos.mpr hm
  have h1 : a + mid.length - 1 + 1 = X.length + mid.length := by omega
  rw [h1, List.append_assoc, take_append_exact X (mid ++ R) a ha]
  congr 1
  rw [List.drop_append_eq_append_drop,
      List.drop_eq_nil_of_le (by omega : X.length ≤ X.length + mid.length)]
  have h2 : X.length + mid.length - X.length = mid.length := by omega
  rw [h2, drop_append_exact mid R mid.length rfl]
  simp

/-- Inserting at exactly the boundary of a two-way split splices the
inserted text in between. -/
theorem insertAt_splice (X R ins : Str) (a : ℕ) (ha : a = X.length) :
    insertAt (X ++ R) a ins = X ++ ins ++ R := by
  unfold insertAt
  rw [take_append_exact X R a ha, drop_append_exact X R a ha,
      List.append_assoc]

/-- Reading back exactly the middle part of a three-way split. -/
theorem subList_splice (X mid R : Str) (a : ℕ) (ha : a = X.length) :
    subList (X ++ mid ++ R) a (a + mid.length) = mid := by
  unfold subList
  rw [List.append_assoc, List.take_append_eq_append_take,
      List.take_of_length_le (by omega : X.length ≤ a + mid.length)]
  have h1 : a + mid.length - X.length = mid.length := by omega
  rw [h1, take_append_exact mid R mid.length rfl, drop_append_exact X mid a ha]

/-- Structure of a located occurrence: it fits inside its element, its
end offset is start + needle length - 1, and the element text splits
as prefix ++ needle ++ suffix at the start offset. -/
theorem mem_findAllOccurrences {d : Doc} {needle : Str} {loc : Location}
    (h : loc ∈ findAllOccurrences d needle) :
    loc.startOffset + needle.length ≤ (d.elemText loc.elemIdx).length ∧
    loc.endOffset = loc.startOffset + needle.length - 1 ∧
    d.elemText loc.elemIdx =
      (d.elemText loc.elemIdx).take loc.startOffset ++ needle ++
      (d.elemText loc.elemIdx).drop (loc.startOffset + needle.length) := by
  unfold findAllOccurrences at h
  rw [List.mem_flatten] at h
  obtain ⟨l, hl, hloc⟩ := h
  rw [List.mem_map] at hl
  obtain ⟨p, hp, rfl⟩ := hl
  rw [List.mem_map] at hloc
  obtain ⟨i, hi, rfl⟩ := hloc
  rw [List.mem_enum_iff_getElem?] at hp
  unfold occurrencesIn at hi
  rw [List.mem_filter, List.mem_range] at hi
  obtain ⟨hirange, hipref⟩ := hi
  have htext : d.elemText p.1 = p.2 := by
    unfold Doc.elemText
    rw [List.getD_eq_getElem?_getD, hp]
    rfl
  have hle : i + needle.length ≤ p.2.length := by omega
  have hsplit : p.2 = p.2.take i ++ needle ++ p.2.drop (i + needle.length) := by
    obtain ⟨u, hu⟩ := List.isPrefixOf_iff_prefix.mp hipref
    have hu2 : u = p.2.drop (i + needle.length) := by
      have h3 : (p.2.drop i).drop needle.length = p.2.drop (i + needle.length) := by
        rw [List.drop_drop]
        try congr 1
        try omega
      rw [← h3, ← hu, drop_append_exact needle u needle.length rfl]
    conv_lhs => rw [← List.take_append_drop i p.2]
    rw [← hu, hu2, List.append_assoc]
  refine ⟨?_, rfl, ?_⟩
  · rw [htext]
    exact hle
  · rw [htext]
    exact hsplit

/-- A successful anchor resolution returns one of the occurrences of
the normalized quoted text. -/
theorem verifyTextLocation_success_mem {d : Doc} {c : Comment} {orig : Str}
    {loc : Location} (h : verifyTextLocation d c orig = .success loc) :
    loc ∈ findAllOccurrences d (normalizeForSearch orig) := by
  by_cases ha : c.anchor = []
  · unfold verifyTextLocation at h
    rw [if_pos ha] at h
    exact VerifyResult.noConfusion h
  cases hq : c.quotedFileContent with
  | none =>
    unfold verifyTextLocation at h
    rw [if_neg ha] at h
    simp only [hq] at h
    exact VerifyResult.noConfusion h
  | some qc =>
    rcases hocc : findAllOccurrences d (normalizeForSearch orig) with
      _ | ⟨m1, _ | ⟨m2, rest⟩⟩
    · unfold verifyTextLocation at h
      rw [if_neg ha] at h
      simp only [hq, hocc] at h
      exact VerifyResult.noConfusion h
    · unfold verifyTextLocation at h
      rw [if_neg ha] at h
      simp only [hq, hocc, VerifyResult.success.injEq] at h
      subst h
      simp
    · obtain ⟨inv1, inv2, inv3⟩ := bestCandidate_inv d qc (m1 :: m2 :: rest) none 0
      rcases inv3 with ⟨hp1, hp2⟩ | ⟨m, hm, hp1, hp2, h7, h0⟩
      · have hbc : bestCandidate d qc (m1 :: m2 :: rest) none 0 = (none, 0) :=
          Prod.ext hp1 hp2
        rw [verifyTextLocation_multi_none d c orig qc ha hq m1 m2 rest hocc 0 hbc]
          at h
        exact VerifyResult.noConfusion h
      · have hbc : bestCandidate d qc (m1 :: m2 :: rest) none 0 =
            (some m, scoreOf d qc m) := Prod.ext hp1 hp2
        by_cases h8 : 8/10 < scoreOf d qc m
        · rw [verifyTextLocation_multi_accept d c orig qc ha hq m1 m2 rest hocc
            m (scoreOf d qc m) hbc h8] at h
          have hml : m = loc := by injection h
          subst hml
          exact hm
        · rw [verifyTextLocation_multi_reject d c orig qc ha hq m1 m2 rest hocc
            m (scoreOf d qc m) hbc h8] at h
          exact VerifyResult.noConfusion h

/-- The acceptance content always starts with the ACCEPTED marker and
is in particular non-empty, so it passes retryCommentUpdate's
parameter validation. -/
theorem acceptContent_ne_nil (o s : Str) : acceptContent o s ≠ [] := by
  intro h
  unfold acceptContent at h
  simp only [List.append_eq_nil] at h
  exact absurd h.1.1.1.1 (by decide)

/-- With every attempt failing, the update client reports failure. -/
theorem retrySuccess_of_all_fail (outcomes : ℕ → Bool) (content : Str)
    (h : ∀ i, outcomes i = false) : retrySuccess outcomes content = false := by
  unfold retrySuccess retryCommentUpdate
  by_cases hc : content = []
  · rw [if_pos hc]
  · rw [if_neg hc]
    simp [retryGo, h 0, h 1, h 2]

/-- C2 (amended): when, on an Accept apply, the document mutation has
been performed and verified and the annotation-store update then fails
after all its retry attempts, the engine rolls the mutation back —
deleting the inserted text and re-inserting the original quotedText at
the same offset, which restores the pre-apply document (stated here
for a quoted text that is already search-normal, and for the generic
case in which the original window does not coincide with the sanitized
replacement) — and the call fails with an error; it does not keep the
mutated text in place and does not return success with a
degraded-state warning. -/
theorem applyAIEdit_store_failure_rolls_back (d : Doc) (env : ApplyEnv)
    (sug : Str) (c : Comment) (orig : Str) (loc : Location)
    (hgo : applyPre d env.comment sug = .go c orig loc (sanitizeText sug))
    (hfault : env.insertFault = none)
    (hfail : ∀ i, env.updateOutcomes i = false)
    (hnorm : normalizeForSearch orig = orig)
    (hw : subList (d.elemText loc.elemIdx) loc.startOffset
        (loc.startOffset + (sanitizeText sug).length) ≠ sanitizeText sug) :
    (applyAIEdit d env sug true).ok = false ∧
    (applyAIEdit d env sug true).error.isSome = true ∧
    (applyAIEdit d env sug true).doc = d := by
  obtain ⟨hco, hres, hcont, hq, ho, hv, -, hsan, hs⟩ := applyPre_go hgo
  have happ : applyAIEdit d env sug true =
      applyAccept d env orig loc (sanitizeText sug) := by
    unfold applyAIEdit
    rw [hgo]
    rfl
  have hmem := verifyTextLocation_success_mem hv
  obtain ⟨hlen, hend, ht⟩ := mem_findAllOccurrences hmem
  rw [hnorm] at hlen hend ht
  have horig1 : 1 ≤ orig.length := List.length_pos.mpr ho
  have hsan1 : 1 ≤ (sanitizeText sug).length := List.length_pos.mpr hsan
  have hXlen : loc.startOffset =
      ((d.elemText loc.elemIdx).take loc.startOffset).length := by
    rw [List.length_take, Nat.min_eq_left (by omega)]
  have hbound : ¬ ((d.elemText loc.elemIdx).length ≤ loc.endOffset) := by
    rw [hend]
    omega
  have hmut : mutatedElem (d.elemText loc.elemIdx) loc (sanitizeText sug) =
      (d.elemText loc.elemIdx).take loc.startOffset ++ sanitizeText sug ++
      (d.elemText loc.elemIdx).drop (loc.startOffset + orig.length) := by
    unfold mutatedElem
    rw [hend]
    conv_lhs => rw [ht]
    rw [deleteRange_splice _ orig _ loc.startOffset hXlen ho,
        insertAt_splice _ _ _ loc.startOffset hXlen]
  have hver : subList
      (mutatedElem (d.elemText loc.elemIdx) loc (sanitizeText sug))
      loc.startOffset (loc.startOffset + (sanitizeText sug).length) =
      sanitizeText sug := by
    rw [hmut]
    exact subList_splice _ _ _ _ hXlen
  have hrb : rollbackElem
      (mutatedElem (d.elemText loc.elemIdx) loc (sanitizeText sug))
      loc (sanitizeText sug) orig = d.elemText loc.elemIdx := by
    unfold rollbackElem
    rw [hmut,
        deleteRange_splice _ (sanitizeText sug) _ loc.startOffset hXlen hsan,
        insertAt_splice _ _ _ loc.startOffset hXlen]
    exact ht.symm
  have hretry : retrySuccess env.updateOutcomes
      (acceptContent orig (sanitizeText sug)) = false :=
    retrySuccess_of_all_fail _ _ hfail
  rw [happ]
  unfold applyAccept
  rw [hfault]
  simp only [Option.getD_none]
  rw [if_neg hbound, if_pos hver, if_neg (by rw [hretry]; exact Bool.false_ne_true),
      if_pos hver, hrb, setElemText_elemText]
  unfold catchRestore
  rw [if_neg hw]
  exact ⟨rfl, rfl, rfl⟩

/-- C2 witness: the amended rollback-and-fail behaviour exercised at a
concrete input through the theorem itself. -/
theorem applyAIEdit_store_failure_rolls_back_witness :
    (applyAIEdit ⟨["Say hello world today".toList]⟩
      ⟨some ⟨"AI: improve".toList, some ("hello world".toList), "a".toList,
        false, []⟩, fun _ => false, false, none⟩
      ("hi".toList) true).ok = false ∧
    (applyAIEdit ⟨["Say hello world today".toList]⟩
      ⟨some ⟨"AI: improve".toList, some ("hello world".toList), "a".toList,
        false, []⟩, fun _ => false, false, none⟩
      ("hi".toList) true).doc = ⟨["Say hello world today".toList]⟩ := by
  have h := applyAIEdit_store_failure_rolls_back
    ⟨["Say hello world today".toList]⟩
    ⟨some ⟨"AI: improve".toList, some ("hello world".toList), "a".toList,
      false, []⟩, fun _ => false, false, none⟩
    ("hi".toList)
    ⟨"AI: improve".toList, some ("hello world".toList), "a".toList, false, []⟩
    ("hello world".toList) ⟨0, 4, 14, 4, 14⟩
    (by decide) rfl (fun _ => rfl) (by decide) (by decide)
  exact ⟨h.1, h.2.2⟩
